import Mathlib

/-!
Verification of the temporal layout engine of the github-widgets repository.

The definitions below are a shallow embedding of the JavaScript source:
* `parseYMD`, `dateUTC`, `daysFromCivil`, `parseIntJS` embed the date parsing
  of `generateExperienceTimeline.js` (function `parseYMD`, which builds
  `new Date(Date.UTC(y, m, d))`);
* `validateExperienceCSV` embeds the CSV validation of
  `handlers/v1/experience-timeline.js`;
* `JItem`, `leItem`, `sortItems`, `assignLane`, `allocGo`, `laneAlloc` embed
  the sort + greedy lane allocation;
* `project`, `minStartD`, `maxEndD` embed the time scale;
* `labelStep`, `placeLabels` embed the date-label proximity suppression;
* `baselineDuration` … `jobDelay` embed the animation schedule;
* `niceYTicks` and `computePathLength` embed the activity-chart helpers.

JavaScript strings are embedded as `List Char`; machine numbers holding
integral quantities (epoch milliseconds, lane indices, tick values) as
`Int`/`Nat`; fractional pixel and second quantities as `ℚ`; the geometric
path length (which uses square roots) as `ℝ`.
-/

namespace GW

/-! ### JavaScript string primitives -/

/-- Whitespace predicate used by the embedding of JavaScript `trim` and
`parseInt` (ASCII whitespace suffices for the inputs of this program). -/
def jsWS (c : Char) : Bool :=
  c = ' ' || c = '\t' || c = '\n' || c = '\r'

/-- Embedding of JavaScript `String.prototype.split(sep)` for a one-character
separator, on char lists.  `split` always returns at least one (possibly
empty) field. -/
def splitOnChar (sep : Char) : List Char → List (List Char)
  | [] => [[]]
  | c :: rest =>
    match splitOnChar sep rest with
    | [] => if c = sep then [[], []] else [[c]]
    | h :: t => if c = sep then [] :: h :: t else (c :: h) :: t

/-- Embedding of JavaScript `String.prototype.trim`. -/
def trimChars (cs : List Char) : List Char :=
  ((cs.dropWhile jsWS).reverse.dropWhile jsWS).reverse

/-- Embedding of JavaScript `String.prototype.toLowerCase` (ASCII inputs). -/
def toLowerChars (cs : List Char) : List Char :=
  cs.map Char.toLower

/-- Value of a nonempty digit prefix; `none` when there is no leading digit.
Helper for `parseIntJS`. -/
def digitsVal (cs : List Char) : Option Nat :=
  let ds := cs.takeWhile Char.isDigit
  if ds.isEmpty then none
  else some (ds.foldl (fun acc c => acc * 10 + (c.toNat - 48)) 0)

/-- Sign handling of `parseInt` after whitespace skipping: an optional
leading sign, then the longest digit prefix. -/
def parseIntCore : List Char → Option Int
  | [] => none
  | c :: rest =>
    if c = '-' then (digitsVal rest).map (fun n => -(n : Int))
    else if c = '+' then (digitsVal rest).map (fun n => (n : Int))
    else (digitsVal (c :: rest)).map (fun n => (n : Int))

/-- Embedding of JavaScript `parseInt(s, 10)`: skip leading whitespace, read
an optional sign and then the longest digit prefix; `none` models `NaN`. -/
def parseIntJS (cs : List Char) : Option Int :=
  parseIntCore (cs.dropWhile jsWS)

/-! ### Civil-date arithmetic (embedding of `Date.UTC`) -/

/-- Days from the Unix epoch of the civil date `y-m-d` (month `1..12`), the
standard era-based civil-calendar computation.  `Int` division is Euclidean,
which agrees with floor division for the positive divisors used here. -/
def daysFromCivil (y m d : Int) : Int :=
  let y' := if m ≤ 2 then y - 1 else y
  let era := y' / 400
  let yoe := y' - era * 400
  let mp := if 2 < m then m - 3 else m + 9
  let doy := (153 * mp + 2) / 5 + d - 1
  let doe := yoe * 365 + yoe / 4 - yoe / 100 + doy
  era * 146097 + doe - 719468

/-- Embedding of JavaScript `Date.UTC(y, m, d)` (month `m` is 0-based and may
overflow: it is normalized by floor division into the year).  Years `0..99`
are interpreted as `1900..1999`.  The result is epoch milliseconds; `none`
models the `NaN` returned outside the representable range of ±8.64e15 ms. -/
def dateUTC (y m d : Int) : Option Int :=
  let yr := if 0 ≤ y ∧ y ≤ 99 then 1900 + y else y
  let ym := yr + m / 12
  let mn := m % 12
  let days := daysFromCivil ym (mn + 1) 1 + (d - 1)
  let ms := days * 86400000
  if ms < -8640000000000000 ∨ 8640000000000000 < ms then none else some ms

/-- Embedding of `parseYMD` from `generateExperienceTimeline.js`:
split on `-`, default the month part to January and the day part to the 1st
when absent or empty, and build the UTC instant.  `none` models both the
`null` returned for an empty string and a `NaN` date (the caller throws on
either for a start date). -/
def parseYMD (s : String) : Option Int :=
  let cs := s.toList
  if cs.isEmpty then none
  else
    let parts := splitOnChar '-' cs
    let y? := parseIntJS (parts.getD 0 [])
    let m? : Option Int :=
      if (parts.getD 1 []).isEmpty then some 0
      else (parseIntJS (parts.getD 1 [])).map (fun v => v - 1)
    let d? : Option Int :=
      if (parts.getD 2 []).isEmpty then some 1
      else parseIntJS (parts.getD 2 [])
    match y?, m?, d? with
    | some y, some m, some d => dateUTC y m d
    | _, _, _ => none

/-! ### CSV validation (embedding of `validateExperienceCSV`) -/

/-- Embedding of the regular expression
`^\d{4}(-\d{2}(-\d{2})?)?$` used by `validateExperienceCSV` to check the
three accepted date shapes `YYYY`, `YYYY-MM`, `YYYY-MM-DD`. -/
def shapeOK : List Char → Bool
  | [a, b, c, d] => a.isDigit && b.isDigit && c.isDigit && d.isDigit
  | [a, b, c, d, s1, e, f] =>
    a.isDigit && b.isDigit && c.isDigit && d.isDigit && s1 == '-'
      && e.isDigit && f.isDigit
  | [a, b, c, d, s1, e, f, s2, g, h] =>
    a.isDigit && b.isDigit && c.isDigit && d.isDigit && s1 == '-'
      && e.isDigit && f.isDigit && s2 == '-' && g.isDigit && h.isDigit
  | _ => false

/-- The header fields required by `validateExperienceCSV`, in order. -/
def expectedHeader : List (List Char) :=
  ["company".toList, "start".toList, "end".toList,
   "title".toList, "logo".toList, "color".toList]

/-- The non-blank data rows of the CSV (everything after the header line,
rows that trim to the empty string filtered out), as in the handler. -/
def dataRowsOf (csv : String) : List (List Char) :=
  ((splitOnChar '\n' (trimChars csv.toList)).drop 1).filter
    (fun l => !(trimChars l).isEmpty)

/-- Embedding of the per-row checks of `validateExperienceCSV`: exactly six
comma-separated fields, non-blank company and start, and the date-shape
regular expression on start and (when non-empty) end. -/
def checkRow (row : List Char) : Except String Unit :=
  let fields := splitOnChar ',' row
  if fields.length ≠ 6 then .error "incorrect number of fields"
  else
    let company := trimChars (fields.getD 0 [])
    let start := trimChars (fields.getD 1 [])
    if company.isEmpty then .error "company is required"
    else if start.isEmpty then .error "start date is required"
    else if !shapeOK start then
      .error "start date must be in format YYYY, YYYY-MM, or YYYY-MM-DD"
    else
      let e := trimChars (fields.getD 2 [])
      if !e.isEmpty && !shapeOK e then
        .error "end date must be in format YYYY, YYYY-MM, or YYYY-MM-DD (or empty for present)"
      else .ok ()

/-- Run `checkRow` over all data rows, stopping at the first failure, as the
validation loop does. -/
def checkRows : List (List Char) → Except String Unit
  | [] => .ok ()
  | r :: rs => match checkRow r with
    | .ok _ => checkRows rs
    | .error e => .error e

/-- Embedding of `validateExperienceCSV` from
`handlers/v1/experience-timeline.js` (the handler calls it on the decoded CSV
before `generateExperienceTimeline` runs). -/
def validateExperienceCSV (csv : String) : Except String Unit :=
  let lines := splitOnChar '\n' (trimChars csv.toList)
  if lines.length < 2 then .error "CSV must contain at least a header and one data row"
  else
    let header := trimChars (toLowerChars (lines.getD 0 []))
    let headerFields := (splitOnChar ',' header).map trimChars
    if headerFields ≠ expectedHeader then
      .error "CSV header must be: company,start,end,title,logo,color"
    else if (dataRowsOf csv).isEmpty then
      .error "CSV must contain at least one experience entry"
    else checkRows (dataRowsOf csv)

/-! ### Parsed intervals, sort policy and greedy lane allocation -/

/-- A parsed interval: start instant and optional end instant, both in epoch
milliseconds (the display metadata is irrelevant to the layout engine). -/
structure JItem where
  start : Int
  endT : Option Int
  deriving DecidableEq, Repr

/-- Effective end of an interval: its end instant, or `now` when absent
(`it.end || now` in the source). -/
def eff (it : JItem) (now : Int) : Int :=
  it.endT.getD now

/-- The sort policy of the source comparator: ascending start, ties broken by
descending effective end. -/
def leItem (now : Int) (a b : JItem) : Prop :=
  a.start < b.start ∨ (a.start = b.start ∧ eff b now ≤ eff a now)

instance (now : Int) : DecidableRel (leItem now) := fun a b => by
  unfold leItem; infer_instance

/-- The sort-policy relation is total. -/
instance (now : Int) : IsTotal JItem (leItem now) := by
  constructor
  intro a b
  unfold leItem
  rcases lt_trichotomy a.start b.start with h | h | h
  · exact Or.inl (Or.inl h)
  · rcases le_total (eff b now) (eff a now) with he | he
    · exact Or.inl (Or.inr ⟨h, he⟩)
    · exact Or.inr (Or.inr ⟨h.symm, he⟩)
  · exact Or.inr (Or.inl h)

/-- The sort-policy relation is transitive. -/
instance (now : Int) : IsTrans JItem (leItem now) := by
  constructor
  intro a b c hab hbc
  unfold leItem at hab hbc ⊢
  rcases hab with h1 | ⟨h1, h1'⟩ <;> rcases hbc with h2 | ⟨h2, h2'⟩
  · exact Or.inl (h1.trans h2)
  · exact Or.inl (h2 ▸ h1)
  · exact Or.inl (h1 ▸ h2)
  · exact Or.inr ⟨h1.trans h2, h2'.trans h1'⟩

/-- Embedding of `items.sort(comparator)` (a stable sort by the policy
relation). -/
def sortItems (now : Int) (items : List JItem) : List JItem :=
  items.insertionSort (leItem now)

/-- Embedding of the inner scan of the greedy allocator: find the first lane
whose `lastEnd ≤ s`, update it to `e`, or append a new lane.  Returns the
assigned lane index together with the updated `laneLastEnd` array. -/
def assignLane : List Int → Int → Int → Nat × List Int
  | [], _, e => (0, [e])
  | l :: ls, s, e =>
    if l ≤ s then (0, e :: ls)
    else
      let r := assignLane ls s e
      (r.1 + 1, l :: r.2)

/-- The allocation loop: thread the `laneLastEnd` state through the (sorted)
item list, recording each item's lane. -/
def allocGo (now : Int) : List Int → List JItem → List (JItem × Nat)
  | _, [] => []
  | lanes, it :: rest =>
    let r := assignLane lanes it.start (eff it now)
    (it, r.1) :: allocGo now r.2 rest

/-- Full lane allocation of `generateExperienceTimeline`: sort by the policy,
then run the greedy first-fit scan. -/
def laneAlloc (now : Int) (items : List JItem) : List (JItem × Nat) :=
  allocGo now [] (sortItems now items)

/-- Two intervals overlap when their half-open `[start, end-or-now)` ranges
intersect. -/
def Overlap (now : Int) (a b : JItem) : Prop :=
  max a.start b.start < min (eff a now) (eff b now)

instance (now : Int) (a b : JItem) : Decidable (Overlap now a b) := by
  unfold Overlap; infer_instance

/-! ### Time scale -/

/-- Embedding of `d3.min(items, d => d.start)` (defaulted for the empty
list, which the validated pipeline never produces). -/
def minStartD : List JItem → Int
  | [] => 0
  | it :: rest => rest.foldl (fun m x => min m x.start) it.start

/-- Embedding of `d3.max(items, d => d.end ? d.end : now)` (defaulted for
the empty list). -/
def maxEndD (now : Int) : List JItem → Int
  | [] => 0
  | it :: rest => rest.foldl (fun m x => max m (eff x now)) (eff it now)

/-- Modelled from the spec: the projection of `d3.scaleTime` (the d3 library
is an external dependency whose source is not part of this repository).
Linear interpolation of `[a, b]` onto `[r1, r2]`; when the domain is
zero-width, d3's normalize maps every input to `0.5`, i.e. the midpoint of
the range. -/
def project (a b r1 r2 t : ℚ) : ℚ :=
  if b - a = 0 then r1 + (r2 - r1) * (1 / 2)
  else r1 + ((t - a) / (b - a)) * (r2 - r1)

/-! ### Date-label proximity suppression -/

/-- Embedding of JavaScript `Math.abs` on rationals. -/
def absQ (q : ℚ) : ℚ := if q < 0 then -q else q

/-- Embedding of one label placement attempt: suppress when any
already-placed label x-coordinate is within the 20px proximity threshold
(`Math.abs(x - nx) < labelProximityThreshold`), otherwise place the label
and record its x-coordinate. -/
def labelStep (acc : List ℚ) (x : ℚ) : Bool × List ℚ :=
  if acc.any (fun y => decide (absQ (y - x) < 20)) then (false, acc)
  else (true, x :: acc)

/-- Embedding of the date-label pass of `generateExperienceTimeline`: one
pass over the (lane-ordered) items, attempting the start label and then the
end label of each item against a single running collision set.  Returns for
each item whether its start and end labels were rendered. -/
def placeLabels (proj : Int → ℚ) (incS incE : Bool) :
    List ℚ → List JItem → List (Bool × Bool)
  | _, [] => []
  | acc, it :: rest =>
    let s := if incS then labelStep acc (proj it.start) else (false, acc)
    let e := match it.endT with
      | some t => if incE then labelStep s.2 (proj t) else (false, s.2)
      | none => (false, s.2)
    (s.1, e.1) :: placeLabels proj incS incE e.2 rest

/-! ### Animation schedule -/

/-- Embedding of `baselineDuration = animationTotalDuration * 0.15`. -/
def baselineDuration (T : ℚ) : ℚ := T * 0.15

/-- Embedding of `datesDuration = animationTotalDuration * 0.1`. -/
def datesDuration (T : ℚ) : ℚ := T * 0.1

/-- Embedding of `jobsDuration = animationTotalDuration * 0.75`. -/
def jobsDuration (T : ℚ) : ℚ := T * 0.75

/-- Embedding of `datesDelay = baselineDuration`. -/
def datesDelay (T : ℚ) : ℚ := baselineDuration T

/-- Embedding of `jobsStartTime = datesDelay + datesDuration`. -/
def jobsStartTime (T : ℚ) : ℚ := datesDelay T + datesDuration T

/-- Embedding of `durationPerJob = jobsDuration / Math.max(1, items.length)`. -/
def durationPerJob (T : ℚ) (n : ℕ) : ℚ := jobsDuration T / ((max 1 n : ℕ) : ℚ)

/-- Embedding of `jobPartAnimDuration = durationPerJob * 0.5` (the per-item
reveal duration). -/
def jobPartAnimDuration (T : ℚ) (n : ℕ) : ℚ := durationPerJob T n * 0.5

/-- Embedding of `delay = jobsStartTime + i * durationPerJob` for item
index `i`. -/
def jobDelay (T : ℚ) (n : ℕ) (i : ℕ) : ℚ :=
  jobsStartTime T + (i : ℚ) * durationPerJob T n

/-- Embedding of `closingConnectorDelay = delay + jobPartAnimDuration`. -/
def closingConnectorDelay (T : ℚ) (n : ℕ) (i : ℕ) : ℚ :=
  jobDelay T n i + jobPartAnimDuration T n

/-! ### Bar geometry (degenerate-input robustness) -/

/-- Embedding of the duration-bar width `Math.max(6, x2 - x1)`. -/
def barW (x1 x2 : ℚ) : ℚ := max 6 (x2 - x1)

/-- Embedding of the duration-bar x-coordinate `Math.min(x1, x2)`. -/
def barX (x1 x2 : ℚ) : ℚ := min x1 x2

/-! ### Tick generator (activity chart) -/

/-- The tick step of `niceYTicks`:
`Math.ceil(maxCount / (targetTicks - 1)) || 1`, i.e. the ceiling division
with a minimum of 1 (for `targetTicks ≥ 2`, `⌈m / (t-1)⌉ = (m + t - 2) / (t - 1)`
in natural division). -/
def tickStep (maxCount targetTicks : ℕ) : ℕ :=
  max 1 ((maxCount + targetTicks - 2) / (targetTicks - 1))

/-- The stepped tick values of `niceYTicks`: the `for` loop pushes
`0, step, 2*step, …` while the value stays `≤ maxCount`. -/
def tickSeq (maxCount targetTicks : ℕ) : List ℕ :=
  (List.range (maxCount / tickStep maxCount targetTicks + 1)).map
    (fun i => i * tickStep maxCount targetTicks)

/-- Embedding of `niceYTicks` from the activity-chart module: the stepped
sequence, with `maxCount` appended when the loop does not land on it
exactly. -/
def niceYTicks (maxCount : ℕ) (targetTicks : ℕ) : List ℕ :=
  if (tickSeq maxCount targetTicks).getLast? = some maxCount then
    tickSeq maxCount targetTicks
  else tickSeq maxCount targetTicks ++ [maxCount]

/-! ### Path length (activity chart) -/

/-- Sum of `Math.hypot(dx, dy)` over consecutive points, as the loop of
`computePathLength` accumulates it. -/
noncomputable def pathSum : List (ℝ × ℝ) → ℝ
  | p :: q :: rest => Real.sqrt ((q.1 - p.1) ^ 2 + (q.2 - p.2) ^ 2) + pathSum (q :: rest)
  | _ => 0

/-- Embedding of `computePathLength`: the Euclidean length of the polyline,
floored at 1 (`Math.max(1, L)`). -/
noncomputable def computePathLength (pts : List (ℝ × ℝ)) : ℝ :=
  max 1 (pathSum pts)

/-- Euclidean length of one segment (`Math.hypot`). -/
noncomputable def segLen (p q : ℝ × ℝ) : ℝ :=
  Real.sqrt ((q.1 - p.1) ^ 2 + (q.2 - p.2) ^ 2)

/-! ### Concrete scenario data -/

/-- Interval A of the pinned scenario: 2020-01 to 2021-06. -/
def exA : JItem := ⟨(parseYMD "2020-01").getD 0, some ((parseYMD "2021-06").getD 0)⟩

/-- Interval B of the pinned scenario: 2020-06 to 2021-01 (overlaps A). -/
def exB : JItem := ⟨(parseYMD "2020-06").getD 0, some ((parseYMD "2021-01").getD 0)⟩

/-- Interval C of the pinned scenario: 2021-07, ongoing. -/
def exC : JItem := ⟨(parseYMD "2021-07").getD 0, none⟩

/-- A concrete render instant for the pinned scenario (2025-01-01). -/
def nowC2 : Int := (parseYMD "2025-01-01").getD 0

/-- Concrete pixel projection for the label-suppression scenario: domain
`[0, 1140]` ms onto the default range `[30, 1170]` px (1 px per ms). -/
def projC3 : Int → ℚ := fun t => project 0 1140 30 1170 (t : ℚ)

/-! ### Properties of the greedy lane scan -/

/-- The lane `assignLane` picks satisfies the guard `lastEnd ≤ s` (when it is
an existing lane). -/
theorem assignLane_guard : ∀ (lanes : List Int) (s e v : Int),
    lanes[(assignLane lanes s e).1]? = some v → v ≤ s := by
  intro lanes
  induction lanes with
  | nil => intro s e v h; simp [assignLane] at h
  | cons l ls ih =>
    intro s e v h
    by_cases hls : l ≤ s
    · simp [assignLane, hls] at h
      omega
    · simp only [assignLane, hls, if_false, List.getElem?_cons_succ] at h
      exact ih s e v h

/-- Every lane before the one `assignLane` picks fails the guard: the scan
takes the first qualifying lane in creation order. -/
theorem assignLane_first : ∀ (lanes : List Int) (s e : Int) (j : ℕ) (v : Int),
    j < (assignLane lanes s e).1 → lanes[j]? = some v → s < v := by
  intro lanes
  induction lanes with
  | nil => intro s e j v hj _; simp [assignLane] at hj
  | cons l ls ih =>
    intro s e j v hj hv
    by_cases hls : l ≤ s
    · simp [assignLane, hls] at hj
    · simp only [assignLane, hls, if_false] at hj
      match j with
      | 0 =>
        simp only [List.getElem?_cons_zero, Option.some.injEq] at hv
        omega
      | j + 1 =>
        simp only [List.getElem?_cons_succ] at hv
        exact ih s e j v (by omega) hv

/-- The scan of `assignLane` records the interval's effective end as the
chosen lane's new `lastEnd`. -/
theorem assignLane_set : ∀ (lanes : List Int) (s e : Int),
    (assignLane lanes s e).2[(assignLane lanes s e).1]? = some e := by
  intro lanes
  induction lanes with
  | nil => intro s e; simp [assignLane]
  | cons l ls ih =>
    intro s e
    by_cases hls : l ≤ s
    · simp [assignLane, hls]
    · simpa only [assignLane, hls, if_false, List.getElem?_cons_succ] using ih s e

/-- The scan of `assignLane` leaves every other lane's `lastEnd` unchanged. -/
theorem assignLane_other : ∀ (lanes : List Int) (s e : Int) (j : ℕ),
    j ≠ (assignLane lanes s e).1 → (assignLane lanes s e).2[j]? = lanes[j]? := by
  intro lanes
  induction lanes with
  | nil =>
    intro s e j hj
    simp only [assignLane] at hj ⊢
    match j with
    | 0 => omega
    | j + 1 => simp
  | cons l ls ih =>
    intro s e j hj
    by_cases hls : l ≤ s
    · simp only [assignLane, hls, if_true] at hj ⊢
      match j with
      | 0 => omega
      | j + 1 => simp
    · simp only [assignLane, hls, if_false] at hj ⊢
      match j with
      | 0 => simp
      | j + 1 =>
        simp only [List.getElem?_cons_succ]
        exact ih s e j (by omega)

/-- The scan of `assignLane` opens a new lane only at the end of the lane
array. -/
theorem assignLane_idx_le : ∀ (lanes : List Int) (s e : Int),
    (assignLane lanes s e).1 ≤ lanes.length := by
  intro lanes
  induction lanes with
  | nil => intro s e; simp [assignLane]
  | cons l ls ih =>
    intro s e
    by_cases hls : l ≤ s
    · simp [assignLane, hls]
    · simp only [assignLane, hls, if_false, List.length_cons]
      exact Nat.succ_le_succ (ih s e)

/-- Items of the allocation output are the input items, in order. -/
theorem allocGo_fst (now : Int) : ∀ (rest : List JItem) (lanes : List Int),
    (allocGo now lanes rest).map Prod.fst = rest := by
  intro rest
  induction rest with
  | nil => intro lanes; simp [allocGo]
  | cons it rest ih => intro lanes; simp [allocGo, ih]

/-- Membership version of `allocGo_fst`. -/
theorem allocGo_mem_fst (now : Int) {rest : List JItem} {lanes : List Int}
    {p : JItem × Nat} (hp : p ∈ allocGo now lanes rest) : p.1 ∈ rest := by
  have := allocGo_fst now rest lanes
  rw [← this]
  exact List.mem_map_of_mem Prod.fst hp

/-- Every later item assigned to an already-open lane starts no earlier than
that lane's current `lastEnd` (starts being processed in ascending order). -/
theorem allocGo_lane_lb (now : Int) : ∀ (rest : List JItem) (lanes : List Int),
    List.Pairwise (fun a b => a.start ≤ b.start) rest →
    ∀ q ∈ allocGo now lanes rest, ∀ v, lanes[q.2]? = some v → v ≤ q.1.start := by
  intro rest
  induction rest with
  | nil => intro lanes _ q hq; simp [allocGo] at hq
  | cons it rest ih =>
    intro lanes hp q hq v hv
    rw [List.pairwise_cons] at hp
    simp only [allocGo, List.mem_cons] at hq
    rcases hq with rfl | hq
    · exact assignLane_guard lanes it.start (eff it now) v hv
    · by_cases hj : q.2 = (assignLane lanes it.start (eff it now)).1
      · have h1 : v ≤ it.start := assignLane_guard lanes it.start (eff it now) v (hj ▸ hv)
        exact h1.trans (hp.1 q.1 (allocGo_mem_fst now hq))
      · have hv' : (assignLane lanes it.start (eff it now)).2[q.2]? = some v := by
          rw [assignLane_other lanes it.start (eff it now) q.2 hj]; exact hv
        exact ih _ hp.2 q hq v hv'

/-- Core allocation invariant: among the output of the greedy scan on a
start-sorted list, items sharing a lane never overlap. -/
theorem allocGo_pairwise (now : Int) : ∀ (rest : List JItem) (lanes : List Int),
    List.Pairwise (fun a b => a.start ≤ b.start) rest →
    List.Pairwise (fun p q => p.2 = q.2 → ¬ Overlap now p.1 q.1) (allocGo now lanes rest) := by
  intro rest
  induction rest with
  | nil => intro lanes _; simp [allocGo]
  | cons it rest ih =>
    intro lanes hp
    rw [List.pairwise_cons] at hp
    simp only [allocGo]
    constructor
    · intro q hq heq hov
      dsimp only at heq hov
      have hset : (assignLane lanes it.start (eff it now)).2[q.2]? = some (eff it now) := by
        rw [← heq]; exact assignLane_set lanes it.start (eff it now)
      have hle : eff it now ≤ q.1.start :=
        allocGo_lane_lb now rest _ hp.2 q hq (eff it now) hset
      have hst : it.start ≤ q.1.start := hp.1 q.1 (allocGo_mem_fst now hq)
      unfold Overlap at hov
      have h1 : min (eff it now) (eff q.1 now) ≤ eff it now := min_le_left _ _
      have h2 : q.1.start ≤ max it.start q.1.start := le_max_right _ _
      omega
    · exact ih _ hp.2

/-- The sort policy forces ascending starts. -/
theorem leItem_start_le {now : Int} {a b : JItem} (h : leItem now a b) :
    a.start ≤ b.start := by
  rcases h with h | ⟨h, _⟩
  · exact le_of_lt h
  · exact le_of_eq h

/-- The sorted item list has ascending starts. -/
theorem sortItems_start_le (now : Int) (items : List JItem) :
    List.Pairwise (fun a b => a.start ≤ b.start) (sortItems now items) :=
  List.Pairwise.imp leItem_start_le (List.sorted_insertionSort (leItem now) items)

/-- C1.  Lane non-overlap: for every finite list of parsed intervals, no two
intervals that the allocation assigns to the same lane index have overlapping
half-open `[start, end-or-now)` ranges (touching at an endpoint is allowed). -/
theorem lane_non_overlap (now : Int) (items : List JItem) :
    List.Pairwise (fun p q => p.2 = q.2 → ¬ Overlap now p.1 q.1) (laneAlloc now items) :=
  allocGo_pairwise now (sortItems now items) [] (sortItems_start_le now items)

/-- C2.  Exact lane-allocation policy: the processed order is sorted by
ascending start with ties broken by descending effective end; each interval
goes to the first lane (in creation order) whose `lastEnd ≤ start`, whose
`lastEnd` is then updated to the interval's effective end; a new lane is
opened only past the existing lanes; and the pinned scenario A: 2020-01 to
2021-06, B: 2020-06 to 2021-01, C: 2021-07 ongoing yields lanes 0, 1, 0. -/
theorem lane_policy_exact :
    (∀ (now : Int) (items : List JItem), List.Pairwise (leItem now) (sortItems now items))
    ∧ (∀ (lanes : List Int) (s e v : Int),
        lanes[(assignLane lanes s e).1]? = some v → v ≤ s)
    ∧ (∀ (lanes : List Int) (s e : Int) (j : ℕ) (v : Int),
        j < (assignLane lanes s e).1 → lanes[j]? = some v → s < v)
    ∧ (∀ (lanes : List Int) (s e : Int),
        (assignLane lanes s e).2[(assignLane lanes s e).1]? = some e)
    ∧ (∀ (lanes : List Int) (s e : Int), (assignLane lanes s e).1 ≤ lanes.length)
    ∧ laneAlloc nowC2 [exA, exB, exC] = [(exA, 0), (exB, 1), (exC, 0)] := by
  refine ⟨fun now items => List.sorted_insertionSort (leItem now) items,
    assignLane_guard, assignLane_first, assignLane_set, assignLane_idx_le, ?_⟩
  decide

/-- Witness for C2: the hypotheses of the guard and first-fit conjuncts are
satisfiable at concrete inputs. -/
theorem lane_policy_exact_witness :
    ((5 : Int) ≤ 7) ∧ ((3 : Int) < 5) :=
  ⟨lane_policy_exact.2.1 [5] 7 9 5 (by decide),
   lane_policy_exact.2.2.1 [5, 0] 3 9 0 5 (by decide) (by decide)⟩

/-- C3.  Label suppression under the proximity rule: a label placed at pixel
`x` is rendered exactly when every previously placed label is at least the
20px threshold away; a suppressed label is dropped without shifting and
without entering the collision set; and in the pinned scenario two start
labels projecting 15px apart render only the first-processed one, while at
25px apart both render. -/
theorem label_suppression :
    (∀ (acc : List ℚ) (x : ℚ),
        (labelStep acc x).1 = true ↔ ∀ y ∈ acc, 20 ≤ absQ (y - x))
    ∧ (∀ (acc : List ℚ) (x : ℚ),
        (labelStep acc x).2 = if (labelStep acc x).1 = true then x :: acc else acc)
    ∧ placeLabels projC3 true true [] [⟨0, none⟩, ⟨15, none⟩] = [(true, false), (false, false)]
    ∧ placeLabels projC3 true true [] [⟨0, none⟩, ⟨25, none⟩] = [(true, false), (true, false)] := by
  refine ⟨?_, ?_, ?_, ?_⟩
  · intro acc x
    by_cases h : (acc.any fun y => decide (absQ (y - x) < 20)) = true
    · rw [labelStep, if_pos h]
      simp only [List.any_eq_true, decide_eq_true_eq] at h
      obtain ⟨y, hy, hlt⟩ := h
      simp only [Bool.false_eq_true, false_iff, not_forall]
      exact ⟨y, hy, not_le.mpr hlt⟩
    · rw [labelStep, if_neg h]
      simp only [List.any_eq_true, decide_eq_true_eq, not_exists, not_and] at h
      constructor
      · intro _ y hy
        exact not_lt.mp (h y hy)
      · intro _
        rfl
  · intro acc x
    by_cases h : (acc.any fun y => decide (absQ (y - x) < 20)) = true
    · simp [labelStep, h]
    · simp [labelStep, h]
  · norm_num [placeLabels, labelStep, absQ, projC3, project]
  · norm_num [placeLabels, labelStep, absQ, projC3, project]

/-- Witness for C3: the characterization applied at a concrete collision
set. -/
theorem label_suppression_witness :
    (labelStep [30] 45).1 = true ↔ ∀ y ∈ ([30] : List ℚ), 20 ≤ absQ (y - 45) :=
  label_suppression.1 [30] 45

/-- C4.  Animation schedule arithmetic: the baseline stage lasts `0.15T`, the
labels stage lasts `0.10T` starting right after it, the items stage lasts
`0.75T` starting right after that; item `i` is delayed by
`0.25T + i * (0.75T / N)` and its reveal lasts half its slot; for T = 10s and
4 items the slot is 1.875s, delays are 2.5s and 6.25s for items 0 and 2, and
the reveal duration is 0.9375s. -/
theorem animation_schedule (T : ℚ) (n i : ℕ) (hn : 0 < n) :
    (datesDelay T = baselineDuration T
      ∧ jobsStartTime T = baselineDuration T + datesDuration T
      ∧ baselineDuration T = 0.15 * T
      ∧ datesDuration T = 0.1 * T
      ∧ jobsDuration T = 0.75 * T)
    ∧ jobDelay T n i = 0.25 * T + (i : ℚ) * (0.75 * T / (n : ℚ))
    ∧ jobPartAnimDuration T n = (0.75 * T / (n : ℚ)) * 0.5
    ∧ closingConnectorDelay T n i = jobDelay T n i + jobPartAnimDuration T n
    ∧ (durationPerJob 10 4 = 1.875 ∧ jobDelay 10 4 0 = 2.5
      ∧ jobDelay 10 4 2 = 6.25 ∧ jobPartAnimDuration 10 4 = 0.9375) := by
  have hmax : max 1 n = n := Nat.max_eq_right hn
  refine ⟨⟨rfl, rfl, by unfold baselineDuration; ring, by unfold datesDuration; ring,
    by unfold jobsDuration; ring⟩, ?_, ?_, rfl, ?_, ?_, ?_, ?_⟩
  · simp only [jobDelay, jobsStartTime, datesDelay, baselineDuration, datesDuration,
      durationPerJob, jobsDuration, hmax]
    ring
  · simp only [jobPartAnimDuration, durationPerJob, jobsDuration, hmax]
    ring
  · norm_num [durationPerJob, jobsDuration]
  · norm_num [jobDelay, jobsStartTime, datesDelay, baselineDuration, datesDuration,
      durationPerJob, jobsDuration]
  · norm_num [jobDelay, jobsStartTime, datesDelay, baselineDuration, datesDuration,
      durationPerJob, jobsDuration]
  · norm_num [jobPartAnimDuration, durationPerJob, jobsDuration]

/-- Witness for C4: the delay formula applied at T = 10, N = 4, i = 2. -/
theorem animation_schedule_witness :
    jobDelay 10 4 2 = 0.25 * 10 + ((2 : ℕ) : ℚ) * (0.75 * 10 / ((4 : ℕ) : ℚ)) :=
  (animation_schedule 10 4 2 (by norm_num)).2.1

/-- Counterexample for C6: one interval with start 0 and no end, rendered at
`now` one day later.  The derived domain is `[0, now]`, which is not
zero-width, and projecting the shared start yields the range start (30), not
the midpoint (600) promised for this scenario. -/
theorem zero_domain_cex :
    maxEndD 86400000 [(⟨0, none⟩ : JItem)] ≠ minStartD [(⟨0, none⟩ : JItem)]
    ∧ project ((minStartD [(⟨0, none⟩ : JItem)] : ℤ) : ℚ)
        ((maxEndD 86400000 [(⟨0, none⟩ : JItem)] : ℤ) : ℚ) 30 1170
        ((minStartD [(⟨0, none⟩ : JItem)] : ℤ) : ℚ) = 30
    ∧ (30 : ℚ) ≠ (30 + 1170) / 2 := by
  refine ⟨by decide, ?_, by norm_num⟩
  norm_num [project, minStartD, maxEndD, eff]

/-- C6 (amended).  Degenerate inputs never fail after parsing: when the
derived domain is zero-width (`domainStart = domainEnd`, e.g. every interval
shares one start, has an end equal to it, or `now` equals the shared start),
`project` maps every instant to the midpoint of the pixel range; and the bar
geometry of an interval with `end < start` is still well defined: its width
is floored at 6px and its x-coordinate is the smaller projected endpoint. -/
theorem degenerate_geometry :
    (∀ (items : List JItem) (now : Int) (t : ℚ),
        minStartD items = maxEndD now items →
        project ((minStartD items : ℤ) : ℚ) ((maxEndD now items : ℤ) : ℚ) 30 1170 t
          = (30 + 1170) / 2)
    ∧ (∀ x1 x2 : ℚ, 6 ≤ barW x1 x2 ∧ barX x1 x2 ≤ x1 ∧ barX x1 x2 ≤ x2) := by
  constructor
  · intro items now t h
    rw [project, if_pos (by rw [h]; ring)]
    norm_num
  · intro x1 x2
    exact ⟨le_max_left 6 _, min_le_left x1 x2, min_le_right x1 x2⟩

/-- Witness for C6: a genuinely zero-width domain (start equals end equals
now) projects to the midpoint. -/
theorem degenerate_geometry_witness :
    minStartD [(⟨5, some 5⟩ : JItem)] = maxEndD 0 [(⟨5, some 5⟩ : JItem)]
    ∧ project ((minStartD [(⟨5, some 5⟩ : JItem)] : ℤ) : ℚ)
        ((maxEndD 0 [(⟨5, some 5⟩ : JItem)] : ℤ) : ℚ) 30 1170 99 = (30 + 1170) / 2 :=
  ⟨by decide, degenerate_geometry.1 [⟨5, some 5⟩] 0 99 (by decide)⟩

/-- C7.  Time-scale monotonicity: for instants `t1 ≤ t2` inside the derived
domain, the projection is non-decreasing. -/
theorem project_monotone (items : List JItem) (now : Int) (t1 t2 : ℚ)
    (h1 : ((minStartD items : ℤ) : ℚ) ≤ t1) (h12 : t1 ≤ t2)
    (h2 : t2 ≤ ((maxEndD now items : ℤ) : ℚ)) :
    project ((minStartD items : ℤ) : ℚ) ((maxEndD now items : ℤ) : ℚ) 30 1170 t1
      ≤ project ((minStartD items : ℤ) : ℚ) ((maxEndD now items : ℤ) : ℚ) 30 1170 t2 := by
  set a := ((minStartD items : ℤ) : ℚ) with ha
  set b := ((maxEndD now items : ℤ) : ℚ) with hb
  unfold project
  by_cases hba : b - a = 0
  · rw [if_pos hba, if_pos hba]
  · rw [if_neg hba, if_neg hba]
    have hab : a ≤ b := le_trans (le_trans h1 h12) h2
    have hpos : 0 < b - a := by
      rcases lt_or_eq_of_le hab with h | h
      · linarith
      · exact absurd (by rw [h]; ring) hba
    have hdiv : (t1 - a) / (b - a) ≤ (t2 - a) / (b - a) :=
      (div_le_div_iff_of_pos_right hpos).mpr (by linarith)
    have := mul_le_mul_of_nonneg_right hdiv (by norm_num : (0 : ℚ) ≤ 1170 - 30)
    linarith

/-- Witness for C7: monotonicity applied at a concrete domain and instants. -/
theorem project_monotone_witness :
    project ((minStartD [(⟨0, some 100⟩ : JItem)] : ℤ) : ℚ)
        ((maxEndD 0 [(⟨0, some 100⟩ : JItem)] : ℤ) : ℚ) 30 1170 3
      ≤ project ((minStartD [(⟨0, some 100⟩ : JItem)] : ℤ) : ℚ)
        ((maxEndD 0 [(⟨0, some 100⟩ : JItem)] : ℤ) : ℚ) 30 1170 50 :=
  project_monotone [⟨0, some 100⟩] 0 3 50 (by norm_num [minStartD])
    (by norm_num) (by norm_num [maxEndD, eff])

/-- The loop of `computePathLength` sums exactly the Euclidean lengths of the
consecutive segments. -/
theorem pathSum_eq_zipSum : ∀ pts : List (ℝ × ℝ),
    pathSum pts = ((pts.zip pts.tail).map (fun z => segLen z.1 z.2)).sum := by
  intro pts
  match pts with
  | [] => simp [pathSum]
  | [p] => simp [pathSum]
  | p :: q :: rest =>
    have ih := pathSum_eq_zipSum (q :: rest)
    simp only [pathSum, List.tail_cons, List.zip_cons_cons, List.map_cons, List.sum_cons,
      ih, segLen]

/-- C8.  Path length correctness: the computed stroke length is the sum of
Euclidean segment lengths floored at 1, and the 3-point polyline
(0,0)→(3,4)→(3,0) has length 5 + 4 = 9. -/
theorem path_length_correct :
    (∀ pts : List (ℝ × ℝ),
        computePathLength pts = max 1 (((pts.zip pts.tail).map (fun z => segLen z.1 z.2)).sum))
    ∧ computePathLength [((0 : ℝ), (0 : ℝ)), (3, 4), (3, 0)] = 9 := by
  constructor
  · intro pts
    unfold computePathLength
    rw [pathSum_eq_zipSum]
  · unfold computePathLength
    have h1 : pathSum [((0 : ℝ), (0 : ℝ)), (3, 4), (3, 0)] = 9 := by
      simp only [pathSum]
      rw [show ((3 : ℝ) - 0) ^ 2 + ((4 : ℝ) - 0) ^ 2 = 5 ^ 2 by norm_num,
        show ((3 : ℝ) - 3) ^ 2 + ((0 : ℝ) - 4) ^ 2 = 4 ^ 2 by norm_num,
        Real.sqrt_sq (by norm_num), Real.sqrt_sq (by norm_num)]
      norm_num
    rw [h1]
    norm_num

/-! ### Tick generator properties -/

/-- The tick step is at least 1 (`|| 1` in the source). -/
theorem tickStep_pos (m t : ℕ) : 1 ≤ tickStep m t :=
  le_max_left 1 _

/-- Length of the stepped tick sequence. -/
theorem tickSeq_length (m t : ℕ) : (tickSeq m t).length = m / tickStep m t + 1 := by
  simp [tickSeq]

/-- Elements of the stepped tick sequence are the multiples of the step. -/
theorem tickSeq_getElem (m t i : ℕ) (hi : i < m / tickStep m t + 1) :
    (tickSeq m t)[i]? = some (i * tickStep m t) := by
  simp [tickSeq, List.getElem?_range hi]

/-- The last stepped tick is the largest multiple of the step not exceeding
the maximum. -/
theorem tickSeq_getLast (m t : ℕ) :
    (tickSeq m t).getLast? = some (m / tickStep m t * tickStep m t) := by
  rw [List.getLast?_eq_getElem?, tickSeq_length]
  simpa using tickSeq_getElem m t (m / tickStep m t) (by omega)

/-- The stepped tick sequence is strictly increasing. -/
theorem tickSeq_chain (m t : ℕ) : List.Chain' (fun a b => a < b) (tickSeq m t) := by
  rw [tickSeq, List.chain'_map, List.chain'_range_succ]
  intro i _
  exact Nat.mul_lt_mul_of_lt_of_le (Nat.lt_succ_self i) (le_refl _) (tickStep_pos m t)

/-- C9.  Tick generator: for `targetCount ≥ 2` the sequence starts at 0, is
strictly ascending, every tick before the last is the corresponding multiple
of the fixed step `max 1 ⌈max / (targetCount - 1)⌉`, and the sequence ends
with the exact maximum (appended when the stepped values miss it). -/
theorem tick_sequence (maxCount t : ℕ) (ht : 2 ≤ t) :
    (niceYTicks maxCount t)[0]? = some 0
    ∧ (niceYTicks maxCount t).getLast? = some maxCount
    ∧ List.Chain' (fun a b => a < b) (niceYTicks maxCount t)
    ∧ (∀ i : ℕ, i + 1 < (niceYTicks maxCount t).length →
        (niceYTicks maxCount t)[i]? = some (i * tickStep maxCount t)) := by
  have hzero : (tickSeq maxCount t)[0]? = some 0 := by
    simpa using tickSeq_getElem maxCount t 0 (Nat.succ_pos _)
  unfold niceYTicks
  by_cases hland : (tickSeq maxCount t).getLast? = some maxCount
  · rw [if_pos hland]
    refine ⟨hzero, hland, tickSeq_chain maxCount t, ?_⟩
    intro i hi
    rw [tickSeq_length] at hi
    exact tickSeq_getElem maxCount t i (Nat.lt_succ_of_lt (Nat.lt_of_succ_lt_succ hi))
  · rw [if_neg hland]
    have hmax : maxCount / tickStep maxCount t * tickStep maxCount t < maxCount := by
      have hle : maxCount / tickStep maxCount t * tickStep maxCount t ≤ maxCount :=
        Nat.div_mul_le_self maxCount (tickStep maxCount t)
      rcases lt_or_eq_of_le hle with h | h
      · exact h
      · exact absurd (by rw [tickSeq_getLast, h]) hland
    refine ⟨?_, List.getLast?_concat _, ?_, ?_⟩
    · rw [List.getElem?_append_left (by rw [tickSeq_length]; exact Nat.succ_pos _)]
      exact hzero
    · rw [List.chain'_append]
      refine ⟨tickSeq_chain maxCount t, List.chain'_singleton _, ?_⟩
      intro x hx y hy
      rw [tickSeq_getLast] at hx
      simp only [List.head?_cons, Option.mem_def, Option.some.injEq] at hx hy
      rw [← hx, ← hy]
      exact hmax
    · intro i hi
      simp only [List.length_append, List.length_singleton, tickSeq_length] at hi
      have hi' : i < maxCount / tickStep maxCount t + 1 := Nat.lt_of_succ_lt_succ hi
      rw [List.getElem?_append_left (by rw [tickSeq_length]; exact hi')]
      exact tickSeq_getElem maxCount t i hi'

/-- Witness for C9: the tick properties at maximum 7, target count 5
(sequence 0, 2, 4, 6 with 7 appended). -/
theorem tick_sequence_witness : (niceYTicks 7 5).getLast? = some 7 :=
  (tick_sequence 7 5 (by norm_num)).2.1

/-! ### CSV row-shape validation properties -/

/-- When the row loop succeeds, every row passed its checks. -/
theorem checkRows_ok : ∀ (rows : List (List Char)), checkRows rows = .ok () →
    ∀ r ∈ rows, checkRow r = .ok () := by
  intro rows
  induction rows with
  | nil => intro _ r hr; simp at hr
  | cons a rs ih =>
    intro h r hr
    simp only [checkRows] at h
    cases hc : checkRow a with
    | ok u =>
      rw [hc] at h
      rcases List.mem_cons.mp hr with rfl | hr'
      · cases u; exact hc
      · exact ih h r hr'
    | error e =>
      rw [hc] at h
      simp at h

/-- A row that passes its checks splits into exactly six fields. -/
theorem checkRow_len {r : List Char} (h : checkRow r = .ok ()) :
    (splitOnChar ',' r).length = 6 := by
  by_contra h6
  simp [checkRow, h6] at h

/-- C10.  CSV row-shape restriction: a request that passes validation has
every non-blank data row splitting on commas into exactly six fields, and a
row whose company value contains a comma (seven comma-separated fields) is
rejected before any parsing or layout runs. -/
theorem csv_row_shape :
    (∀ csv : String, validateExperienceCSV csv = .ok () →
        ∀ r ∈ dataRowsOf csv, (splitOnChar ',' r).length = 6)
    ∧ (validateExperienceCSV
        "company,start,end,title,logo,color\nAcme, Inc.,2020-01,2021-06,Dev,logo.png,red").isOk
        = false := by
  constructor
  · intro csv hok r hr
    have hrows : checkRows (dataRowsOf csv) = .ok () := by
      simp only [validateExperienceCSV] at hok
      split_ifs at hok <;> first
        | exact hok
        | simp at hok
    exact checkRow_len (checkRows_ok _ hrows r hr)
  · decide

/-- Witness for C10: a well-formed CSV validates and its single data row has
exactly six fields. -/
theorem csv_row_shape_witness :
    validateExperienceCSV "company,start,end,title,logo,color\nAcme,2020-01,2021-06,Dev,logo.png,red"
      = .ok ()
    ∧ ∀ r ∈ dataRowsOf "company,start,end,title,logo,color\nAcme,2020-01,2021-06,Dev,logo.png,red",
        (splitOnChar ',' r).length = 6 :=
  ⟨rfl, csv_row_shape.1 _ rfl⟩

/-! ### Date-parsing totality on shape-matching strings -/

/-- Digit characters have code points 48 to 57. -/
theorem digit_toNat_bounds {c : Char} (h : c.isDigit = true) :
    48 ≤ c.toNat ∧ c.toNat ≤ 57 := by
  simp [Char.isDigit, Char.toNat, UInt32.le_def, BitVec.le_def, UInt32.toNat] at h ⊢
  omega

/-- A digit character is not the dash separator. -/
theorem digit_ne_dash {c : Char} (h : c.isDigit = true) : ¬(c = '-') := by
  intro e
  subst e
  exact absurd h (by decide)

/-- A digit character is not the plus sign. -/
theorem digit_ne_plus {c : Char} (h : c.isDigit = true) : ¬(c = '+') := by
  intro e
  subst e
  exact absurd h (by decide)

/-- A digit character is not whitespace. -/
theorem digit_not_ws {c : Char} (h : c.isDigit = true) : jsWS c = false := by
  cases hj : jsWS c
  · rfl
  · exfalso
    simp [jsWS] at hj
    rcases hj with ((rfl | rfl) | rfl) | rfl <;> exact absurd h (by decide)

/-- An all-digit list is its own longest digit prefix. -/
theorem takeWhile_digits : ∀ (ds : List Char), (∀ c ∈ ds, c.isDigit = true) →
    ds.takeWhile Char.isDigit = ds := by
  intro ds
  induction ds with
  | nil => intro _; rfl
  | cons c rest ih =>
    intro hall
    rw [List.takeWhile_cons, hall c (List.mem_cons_self c rest)]
    simp only [if_true]
    rw [ih (fun x hx => hall x (List.mem_cons_of_mem c hx))]

/-- Reading a nonempty all-digit list succeeds, returning the decimal fold
of the digits. -/
theorem digitsVal_digits (ds : List Char) (hne : ds ≠ [])
    (hall : ∀ c ∈ ds, c.isDigit = true) :
    digitsVal ds = some (ds.foldl (fun acc c => acc * 10 + (c.toNat - 48)) 0) := by
  unfold digitsVal
  rw [takeWhile_digits ds hall]
  cases ds with
  | nil => exact absurd rfl hne
  | cons c rest => rfl

/-- Parsing a nonempty all-digit list succeeds. -/
theorem parseIntJS_digits (ds : List Char) (hne : ds ≠ [])
    (hall : ∀ c ∈ ds, c.isDigit = true) :
    parseIntJS ds
      = some ((ds.foldl (fun acc c => acc * 10 + (c.toNat - 48)) 0 : ℕ) : ℤ) := by
  match ds, hne with
  | c :: rest, _ =>
    have hc := hall c (List.mem_cons_self c rest)
    have hdrop : (c :: rest).dropWhile jsWS = c :: rest := by
      simp only [List.dropWhile_cons, digit_not_ws hc, Bool.false_eq_true, if_false]
    rw [parseIntJS, hdrop]
    simp only [parseIntCore]
    rw [if_neg (digit_ne_dash hc), if_neg (digit_ne_plus hc),
      digitsVal_digits (c :: rest) (by simp) hall]
    rfl

/-- The embedded `Date.UTC` never leaves the representable millisecond range
for the year/month/day magnitudes reachable from the three accepted date
shapes. -/
theorem dateUTC_total (y m d : Int) (h1 : 0 ≤ y) (h2 : y ≤ 9999) (h3 : -1 ≤ m)
    (h4 : m ≤ 98) (h5 : 0 ≤ d) (h6 : d ≤ 99) : ∃ v, dateUTC y m d = some v := by
  simp only [dateUTC, daysFromCivil]
  split_ifs <;> first
    | exact ⟨_, rfl⟩
    | (exfalso; omega)

/-- A string matching one of the three accepted shapes always parses to some
instant: `parseYMD` performs no calendar-validity check that could fail. -/
theorem parseYMD_shape_some : ∀ cs : List Char, shapeOK cs = true →
    ∃ v, parseYMD (String.mk cs) = some v := by
  intro cs h
  unfold shapeOK at h
  split at h
  · next a b c d =>
    simp only [Bool.and_eq_true] at h
    obtain ⟨⟨⟨ha, hb⟩, hc⟩, hd⟩ := h
    have hall : ∀ x ∈ [a, b, c, d], x.isDigit = true := by
      intro x hx
      simp only [List.mem_cons, List.not_mem_nil, or_false] at hx
      rcases hx with rfl | rfl | rfl | rfl <;> assumption
    have hsplit : splitOnChar '-' [a, b, c, d] = [[a, b, c, d]] := by
      simp [splitOnChar, digit_ne_dash ha, digit_ne_dash hb, digit_ne_dash hc,
        digit_ne_dash hd]
    have htl : (String.mk [a, b, c, d]).toList = [a, b, c, d] := rfl
    rw [parseYMD, htl]
    simp only [List.isEmpty_cons, Bool.false_eq_true, if_false, hsplit, List.getD,
      List.get?_cons_zero, List.get?_cons_succ, List.get?_nil, Option.getD_some,
      Option.getD_none, List.isEmpty_nil, if_true]
    rw [parseIntJS_digits [a, b, c, d] (by simp) hall]
    obtain ⟨b1, b2⟩ := digit_toNat_bounds ha
    obtain ⟨b3, b4⟩ := digit_toNat_bounds hb
    obtain ⟨b5, b6⟩ := digit_toNat_bounds hc
    obtain ⟨b7, b8⟩ := digit_toNat_bounds hd
    exact dateUTC_total _ 0 1 (by positivity) (by simp [List.foldl]; omega)
      (by norm_num) (by norm_num) (by norm_num) (by norm_num)
  · next a b c d s1 e f =>
    simp only [Bool.and_eq_true, beq_iff_eq] at h
    obtain ⟨⟨⟨⟨⟨⟨ha, hb⟩, hc⟩, hd⟩, hs1⟩, he⟩, hf⟩ := h
    subst hs1
    have hall4 : ∀ x ∈ [a, b, c, d], x.isDigit = true := by
      intro x hx
      simp only [List.mem_cons, List.not_mem_nil, or_false] at hx
      rcases hx with rfl | rfl | rfl | rfl <;> assumption
    have hall2 : ∀ x ∈ [e, f], x.isDigit = true := by
      intro x hx
      simp only [List.mem_cons, List.not_mem_nil, or_false] at hx
      rcases hx with rfl | rfl <;> assumption
    have hsplit : splitOnChar '-' [a, b, c, d, '-', e, f] = [[a, b, c, d], [e, f]] := by
      simp [splitOnChar, digit_ne_dash ha, digit_ne_dash hb, digit_ne_dash hc,
        digit_ne_dash hd, digit_ne_dash he, digit_ne_dash hf]
    have htl : (String.mk [a, b, c, d, '-', e, f]).toList = [a, b, c, d, '-', e, f] := rfl
    rw [parseYMD, htl]
    simp only [List.isEmpty_cons, Bool.false_eq_true, if_false, hsplit, List.getD,
      List.get?_cons_zero, List.get?_cons_succ, List.get?_nil, Option.getD_some,
      Option.getD_none, List.isEmpty_nil, if_true]
    rw [parseIntJS_digits [a, b, c, d] (by simp) hall4,
      parseIntJS_digits [e, f] (by simp) hall2]
    obtain ⟨b1, b2⟩ := digit_toNat_bounds ha
    obtain ⟨b3, b4⟩ := digit_toNat_bounds hb
    obtain ⟨b5, b6⟩ := digit_toNat_bounds hc
    obtain ⟨b7, b8⟩ := digit_toNat_bounds hd
    obtain ⟨b9, b10⟩ := digit_toNat_bounds he
    obtain ⟨b11, b12⟩ := digit_toNat_bounds hf
    exact dateUTC_total _ _ 1 (by positivity) (by simp [List.foldl]; omega)
      (by simp [List.foldl]; omega) (by simp [List.foldl]; omega)
      (by norm_num) (by norm_num)
  · next a b c d s1 e f s2 g h10 =>
    simp only [Bool.and_eq_true, beq_iff_eq] at h
    obtain ⟨⟨⟨⟨⟨⟨⟨⟨⟨ha, hb⟩, hc⟩, hd⟩, hs1⟩, he⟩, hf⟩, hs2⟩, hg⟩, hh⟩ := h
    subst hs1
    subst hs2
    have hall4 : ∀ x ∈ [a, b, c, d], x.isDigit = true := by
      intro x hx
      simp only [List.mem_cons, List.not_mem_nil, or_false] at hx
      rcases hx with rfl | rfl | rfl | rfl <;> assumption
    have hallef : ∀ x ∈ [e, f], x.isDigit = true := by
      intro x hx
      simp only [List.mem_cons, List.not_mem_nil, or_false] at hx
      rcases hx with rfl | rfl <;> assumption
    have hallgh : ∀ x ∈ [g, h10], x.isDigit = true := by
      intro x hx
      simp only [List.mem_cons, List.not_mem_nil, or_false] at hx
      rcases hx with rfl | rfl <;> assumption
    have hsplit : splitOnChar '-' [a, b, c, d, '-', e, f, '-', g, h10]
        = [[a, b, c, d], [e, f], [g, h10]] := by
      simp [splitOnChar, digit_ne_dash ha, digit_ne_dash hb, digit_ne_dash hc,
        digit_ne_dash hd, digit_ne_dash he, digit_ne_dash hf, digit_ne_dash hg,
        digit_ne_dash hh]
    have htl : (String.mk [a, b, c, d, '-', e, f, '-', g, h10]).toList
        = [a, b, c, d, '-', e, f, '-', g, h10] := rfl
    rw [parseYMD, htl]
    simp only [List.isEmpty_cons, Bool.false_eq_true, if_false, hsplit, List.getD,
      List.get?_cons_zero, List.get?_cons_succ, List.get?_nil, Option.getD_some,
      Option.getD_none, List.isEmpty_nil, if_true]
    rw [parseIntJS_digits [a, b, c, d] (by simp) hall4,
      parseIntJS_digits [e, f] (by simp) hallef,
      parseIntJS_digits [g, h10] (by simp) hallgh]
    obtain ⟨b1, b2⟩ := digit_toNat_bounds ha
    obtain ⟨b3, b4⟩ := digit_toNat_bounds hb
    obtain ⟨b5, b6⟩ := digit_toNat_bounds hc
    obtain ⟨b7, b8⟩ := digit_toNat_bounds hd
    obtain ⟨b9, b10⟩ := digit_toNat_bounds he
    obtain ⟨b11, b12⟩ := digit_toNat_bounds hf
    obtain ⟨b13, b14⟩ := digit_toNat_bounds hg
    obtain ⟨b15, b16⟩ := digit_toNat_bounds hh
    exact dateUTC_total _ _ _ (by positivity) (by simp [List.foldl]; omega)
      (by simp [List.foldl]; omega) (by simp [List.foldl]; omega)
      (by positivity) (by simp [List.foldl]; omega)
  · simp at h

/-- Counterexample for C5: the month-13 string "2020-13" passes the shape
check and the handler's per-row validation, and `parseYMD` parses it
successfully (it rolls over to 2021-01-01, epoch ms 1609459200000) instead
of failing on the invalid calendar month. -/
theorem date_parse_calendar_cex :
    shapeOK "2020-13".toList = true
    ∧ checkRow "Acme,2020-13,,,,".toList = .ok ()
    ∧ parseYMD "2020-13" = some 1609459200000
    ∧ parseYMD "2020-13" = parseYMD "2021-01" := by
  refine ⟨by decide, rfl, by decide, by decide⟩

/-- C5 (amended).  Date-parsing errors: a non-empty start or end string is
rejected exactly when it fails the three-shape check; a shape-matching
string always parses (no calendar-validity failure exists: out-of-range
months and days roll over, e.g. 2020-13 is 2021-01 and 2020-02-30 is
2020-03-01), a missing month resolves to January and a missing day to the
1st, in UTC. -/
theorem date_parse_shape_total :
    (∀ cs : List Char, shapeOK cs = true → ∃ v, parseYMD (String.mk cs) = some v)
    ∧ parseYMD "2020" = parseYMD "2020-01-01"
    ∧ parseYMD "2021-06" = parseYMD "2021-06-01"
    ∧ parseYMD "2020-13" = parseYMD "2021-01"
    ∧ parseYMD "2020-02-30" = parseYMD "2020-03-01" := by
  refine ⟨parseYMD_shape_some, by decide, by decide, by decide, by decide⟩

/-- Witness for C5: the shape-totality conjunct applied at "2020". -/
theorem date_parse_shape_total_witness :
    ∃ v, parseYMD (String.mk "2020".toList) = some v :=
  date_parse_shape_total.1 "2020".toList (by decide)

end GW
